import Mathlib

set_option maxHeartbeats 1000000
set_option maxRecDepth 8192

/-!
Verification development for the MediaWiki dictionary module
(`src/mediawiki.cc` of goldendict-ng).

Article text is modelled as `List Char` (one entry per QChar of the
QString the code manipulates).  Each regular-expression driven rewrite
pass of `MediaWikiArticleRequest::requestFinished` is embedded as an
executable matcher (a deterministic hand-translation of the concrete
pattern, noted at each definition) together with the rebuild logic of
the corresponding loop or `QString::replace` call.  The asynchronous
orchestration (`requestFinished`, the per-request reply queue, the
page-id dedup set, cancellation) is embedded as a state machine whose
events are network-completion callbacks.
-/

/-- Characters of a string literal. -/
def cl (s : String) : List Char := s.toList

/-- Qt `QDomElement::attribute` with the default value: an absent
attribute reads as the empty string. -/
def attrD (a : Option (List Char)) : List Char := a.getD []

/-- Decimal digits folded into a number (helper for the Qt numeric
conversions). -/
def digitsToNat : List Char → Nat → Nat
  | [], acc => acc
  | c :: r, acc => digitsToNat r (acc * 10 + (c.toNat - '0'.toNat))

/-- `QString::toInt` with its ok flag: an optional sign followed by one
or more decimal digits; `none` models ok = false (which the code treats
as a malformed level). -/
def qtToInt (s : List Char) : Option Int :=
  match s with
  | '-' :: rest =>
    if rest ≠ [] ∧ rest.all Char.isDigit then some (-(digitsToNat rest 0 : Int)) else none
  | '+' :: rest =>
    if rest ≠ [] ∧ rest.all Char.isDigit then some ((digitsToNat rest 0 : Int)) else none
  | _ =>
    if s ≠ [] ∧ s.all Char.isDigit then some ((digitsToNat s 0 : Int)) else none

/-- `QString::toLongLong`, which yields 0 when the string does not parse
as a number (this is how the code turns the `pageid` attribute into the
dedup key). -/
def qtToLongLong (s : List Char) : Int := (qtToInt s).getD 0

/-- Index of the first occurrence of `pat` as a contiguous sublist
(`QString::indexOf`). -/
def indexOfSub (pat : List Char) : List Char → Option Nat
  | [] => if pat = [] then some 0 else none
  | c :: rest =>
    if pat.isPrefixOf (c :: rest) then some 0
    else (indexOfSub pat rest).map (· + 1)

/-- Does `pat` occur as a contiguous sublist of `s`. -/
def containsSub (pat s : List Char) : Bool := (indexOfSub pat s).isSome

/-- `QString::replace(pos, len, after)`: splice `rep` over the `len`
characters starting at `i`. -/
def replaceAt (i len : Nat) (rep s : List Char) : List Char :=
  s.take i ++ rep ++ s.drop (i + len)

/-- The character class `\s` of the patterns (ASCII whitespace). -/
def isSpaceQt (c : Char) : Bool :=
  c = ' ' || c = '\t' || c = '\n' || c = '\r' || c = '\x0b' || c = '\x0c'

/-- The character class `\w` of the patterns. -/
def isWordChar (c : Char) : Bool := c.isAlphanum || c = '_'

/-- Case-insensitive prefix test (for the patterns compiled with
CaseInsensitiveOption). -/
def ciPrefix (pat s : List Char) : Bool :=
  (pat.map Char.toLower).isPrefixOf (s.map Char.toLower)

/-- Leftmost match search: `f` reports a match (its length plus capture
data) at the head of its argument; the result is the earliest start
position together with length and captures.  This is the semantics of
`QRegularExpression::globalMatch` producing its first match. -/
def findFirst {α : Type} (f : List Char → Option (Nat × α)) : List Char → Option (Nat × Nat × α)
  | [] => (f []).map (fun la => (0, la.1, la.2))
  | c :: rest =>
    match f (c :: rest) with
    | some (len, a) => some (0, len, a)
    | none => (findFirst f rest).map (fun sla => (sla.1 + 1, sla.2.1, sla.2.2))

/-- One pass of the match-iterator loops of `requestFinished`: copy
the text before the match, splice `g matchedText captures` for the
match, continue after the match (`pos = match.capturedEnd()`).  When no
match is found the string is returned unchanged, exactly as the
`if ( pos )` guards of the code leave `articleString` untouched.  The
fuel is the string length, enough because every match is nonempty. -/
def globalRewrite {α : Type} (f : List Char → Option (Nat × α))
    (g : List Char → α → List Char) : Nat → List Char → List Char
  | 0, s => s
  | fuel + 1, s =>
    match findFirst f s with
    | none => s
    | some (st, len, a) =>
      s.take st ++ g ((s.drop st).take len) a ++ globalRewrite f g fuel (s.drop (st + len))

/-- Run a rewrite loop with enough fuel for the whole string. -/
def runGlobal {α : Type} (f : List Char → Option (Nat × α))
    (g : List Char → α → List Char) (s : List Char) : List Char :=
  globalRewrite f g s.length s

/-- Matcher of a plain substring pattern (for `QString::replace(before,
after)`). -/
def subMatcher (pat : List Char) (s : List Char) : Option (Nat × Unit) :=
  if pat ≠ [] ∧ pat.isPrefixOf s then some (pat.length, ()) else none

/-- `QString::replace(before, after)`: replace every occurrence,
resuming after the spliced replacement. -/
def replaceSub (pat rep s : List Char) : List Char :=
  runGlobal (subMatcher pat) (fun _ _ => rep) s

/-! ### Pass 1: internal link rewrite

Loop over `<a\s+href="/([^"]+)"` (line 504): external links (target
contains `://`) are kept verbatim; otherwise `:` is percent-encoded,
and a `#fragment` (searched from index 1, after the colon encoding) is
moved into a `?gdanchor=` query parameter with `_` encoded as `%5F`. -/

/-- Matcher of `<a\s+href="/([^"]+)"`; the capture is the link target. -/
def linkMatchAt (s : List Char) : Option (Nat × List Char) :=
  match s with
  | '<' :: 'a' :: s1 =>
    let w := (s1.takeWhile isSpaceQt).length
    if w = 0 then none
    else
      let s2 := s1.drop w
      if (cl "href=\"/").isPrefixOf s2 then
        let s3 := s2.drop 7
        let cap := s3.takeWhile (· != '"')
        if cap = [] then none
        else
          match s3.drop cap.length with
          | '"' :: _ => some (2 + w + 7 + cap.length + 1, cap)
          | _ => none
      else none
  | _ => none

/-- `link.replace( ':', "%3A" )`. -/
def linkColonFix (capture : List Char) : List Char :=
  capture.flatMap (fun c => if c = ':' then cl "%3A" else [c])

/-- First occurrence of `c` at index ≥ `start` (`QString::indexOf(ch,
from)`). -/
def indexOfFrom (c : Char) (start : Nat) (s : List Char) : Option Nat :=
  (indexOfSub [c] (s.drop start)).map (· + start)

/-- Body of the link-rewrite loop for one match. -/
def linkRebuild (matched capture : List Char) : List Char :=
  if containsSub (cl "://") capture then matched
  else
    let link := linkColonFix capture
    let link2 :=
      match indexOfFrom '#' 1 link with
      | none => link
      | some n =>
        link.take n ++ cl "?gdanchor=" ++
          (link.drop (n + 1)).flatMap (fun c => if c = '_' then cl "%5F" else [c])
    cl "<a href=\"/" ++ link2 ++ cl "\""

/-- The whole internal-link rewrite pass. -/
def linkRewritePass (s : List Char) : List Char :=
  runGlobal linkMatchAt linkRebuild s

/-! ### Pass 2: absolutize `index.php?` links

`QString::replace` over `<a\shref="(/([\w]*/)*index.php\?)` (line 549);
the unescaped `.` of `index.php` matches any character.  The matcher
below is a deterministic equivalent of the backtracking pattern: at
each path-segment boundary it first tries `index` any `php?`, otherwise
consumes `[\w]*/`; the two strategies pick out the same matches because
the literal `index.php?` cannot begin where a `[\w]*/` segment also
continues except when the any-character is `/`, and that continuation
always dead-ends. -/

/-- Length of `index.php?` (with `.` as any character) at the head. -/
def indexPhpAt (s : List Char) : Option Nat :=
  match s with
  | 'i' :: 'n' :: 'd' :: 'e' :: 'x' :: _ :: rest =>
    if (cl "php?").isPrefixOf rest then some 10 else none
  | _ => none

/-- Length of `([\w]*/)*index.php\?` at the head. -/
def segLoop : Nat → List Char → Option Nat
  | 0, _ => none
  | fuel + 1, s =>
    match indexPhpAt s with
    | some n => some n
    | none =>
      let w := (s.takeWhile isWordChar).length
      match s.drop w with
      | '/' :: rest => (segLoop fuel rest).map (· + w + 1)
      | _ => none

/-- Matcher of `<a\shref="(/([\w]*/)*index.php\?)`; the capture is
group 1 (the path starting at `/`). -/
def indexPhpMatchAt (s : List Char) : Option (Nat × List Char) :=
  match s with
  | '<' :: 'a' :: c :: s1 =>
    if isSpaceQt c then
      if (cl "href=\"").isPrefixOf s1 then
        match s1.drop 6 with
        | '/' :: s2 =>
          match segLoop (s2.length + 1) s2 with
          | some m => some (2 + 1 + 6 + 1 + m, '/' :: s2.take m)
          | none => none
        | _ => none
      else none
    else none
  | _ => none

/-- The `index.php` absolutization pass; `wikiUrlStr` is
`wikiUrl.toString()` of the base URL with path `/`. -/
def indexPhpPass (wikiUrlStr : List Char) (s : List Char) : List Char :=
  runGlobal indexPhpMatchAt (fun _ capture => cl "<a href=\"" ++ wikiUrlStr ++ capture) s

/-! ### Pass 3: audio tag substitution

Loop over `<audio\s.+?</audio>` (case-insensitive, dot-matches-all,
lazy) replacing each tag by a play-icon anchor built from the first
`<source\s+src="([^"]+)` inside it, or keeping the tag when no source
matches (lines 554-584). -/

/-- Matcher of `<audio\s.+?</audio>`: `<audio` (ci), one whitespace,
at least one character, then the earliest `</audio>` (ci). -/
def audioMatchAt (s : List Char) : Option (Nat × Unit) :=
  if ciPrefix (cl "<audio") s then
    match s.drop 6 with
    | c :: s1 =>
      if isSpaceQt c then
        match findFirst (fun t => if ciPrefix (cl "</audio>") t then some (8, ()) else none)
            (s1.drop 1) with
        | some (k, _, _) => some (6 + 1 + (k + 1) + 8, ())
        | none => none
      else none
    | [] => none
  else none

/-- Matcher of `<source\s+src="([^"]+)` (case-insensitive); the capture
is the source reference. -/
def sourceMatchAt (s : List Char) : Option (Nat × List Char) :=
  if ciPrefix (cl "<source") s then
    let s1 := s.drop 7
    let w := (s1.takeWhile isSpaceQt).length
    if w = 0 then none
    else
      let s2 := s1.drop w
      if ciPrefix (cl "src=\"") s2 then
        let cap := (s2.drop 5).takeWhile (· != '"')
        if cap = [] then none else some (7 + w + 5 + cap.length, cap)
      else none
  else none

/-- The literal markup appended after the source reference. -/
def playIconTail : List Char :=
  cl "\"><img src=\"qrcx://localhost/icons/playsound.png\" border=\"0\" align=\"absmiddle\" alt=\"Play\"/></a>"

/-- Body of the audio-tag loop for one matched tag. -/
def audioRebuild (matched : List Char) : List Char :=
  match findFirst sourceMatchAt matched with
  | some (_, _, ref) => cl "<a href=\"" ++ ref ++ playIconTail
  | none => matched

/-- The audio-tag substitution pass. -/
def audioPass (s : List Char) : List Char :=
  runGlobal audioMatchAt (fun m _ => audioRebuild m) s

/-! ### Pass 4: audio URL rewrite

`QString::replace` over
`<a\s+href="(//upload\.wikimedia\.org/wikipedia/[^"'&]*\.og[ga](?:\.mp3|))"`
(line 587).  The replacement prepends the markup returned by the
external `addAudioLink` collaborator.  Modelled from the spec: the
audio-asset registrar (`addAudioLink`, not part of src/) is an opaque
function `reg` from the linked reference and the dictionary identity to
markup to splice in; the code substitutes the capture for `\1` in the
whole after-string, including inside the registrar's return value. -/

/-- Does the body end in `.ogg` / `.oga`, optionally followed by
`.mp3` (the `\.og[ga](?:\.mp3|)` tail before the closing quote). -/
def oggSuffixOk (body : List Char) : Bool :=
  (cl ".ogg").isSuffixOf body || (cl ".oga").isSuffixOf body ||
  (cl ".ogg.mp3").isSuffixOf body || (cl ".oga.mp3").isSuffixOf body

/-- Matcher of the audio-URL pattern; the capture is group 1 (the
protocol-relative URL). -/
def audioUrlMatchAt (s : List Char) : Option (Nat × List Char) :=
  match s with
  | '<' :: 'a' :: s1 =>
    let w := (s1.takeWhile isSpaceQt).length
    if w = 0 then none
    else
      let s2 := s1.drop w
      if (cl "href=\"").isPrefixOf s2 then
        let s3 := s2.drop 6
        if (cl "//upload.wikimedia.org/wikipedia/").isPrefixOf s3 then
          let body := (s3.drop 33).takeWhile (fun c => !(c == '"' || c == '\'' || c == '&'))
          if oggSuffixOk body then
            match (s3.drop 33).drop body.length with
            | '"' :: _ => some (2 + w + 6 + 33 + body.length + 1, s3.take (33 + body.length))
            | _ => none
          else none
        else none
      else none
  | _ => none

/-- Backreference substitution: every `\1` of the after-string is
replaced by the capture (Qt's replacement-string semantics). -/
def backrefSub (template capture : List Char) : List Char :=
  replaceSub (cl "\\1") capture template

/-- The audio-URL pass; `reg` is the external audio registrar. -/
def audioUrlPass (scheme dictId : List Char) (reg : List Char → List Char → List Char)
    (s : List Char) : List Char :=
  runGlobal audioUrlMatchAt
    (fun _ capture =>
      backrefSub
        (reg (cl "\"" ++ scheme ++ cl ":\\1\"") dictId ++
          cl "<a href=\"" ++ scheme ++ cl ":\\1\"")
        capture)
    s

/-! ### Scheme completion and wiki-path stripping (plain replaces) -/

/-- Line 593: `articleString.replace( " src=\"//", " src=\"" + scheme + "://" )`. -/
def srcProtoPass (scheme : List Char) (s : List Char) : List Char :=
  replaceSub (cl " src=\"//") (cl " src=\"" ++ scheme ++ cl "://") s

/-- Line 595: `articleString.replace( "src=\"/", "src=\"" + wikiUrl.toString() )`. -/
def srcRootPass (wikiUrlStr : List Char) (s : List Char) : List Char :=
  replaceSub (cl "src=\"/") (cl "src=\"" ++ wikiUrlStr) s

/-- Line 598: remove the `/wiki/` prefix from links. -/
def wikiStripPass (s : List Char) : List Char :=
  replaceSub (cl "<a href=\"/wiki/") (cl "<a href=\"") s

/-- Line 618: `articleString.replace( " href=\"//", ... )`. -/
def hrefProtoPass (scheme : List Char) (s : List Char) : List Char :=
  replaceSub (cl " href=\"//") (cl " href=\"" ++ scheme ++ cl "://") s

/-- Line 621: `articleString.replace( "url(\"//", ... )`. -/
def cssUrlProtoPass (scheme : List Char) (s : List Char) : List Char :=
  replaceSub (cl "url(\"//") (cl "url(\"" ++ scheme ++ cl "://") s

/-! ### Pass 7: underscore normalization

Loop over `<a\s+href="[^/:">#]+` (line 601): inside each match the
characters from offset `capturedStart + 9` on have `_` turned into a
space. -/

/-- Matcher of `<a\s+href="[^/:">#]+`. -/
def underscoreMatchAt (s : List Char) : Option (Nat × Unit) :=
  match s with
  | '<' :: 'a' :: s1 =>
    let w := (s1.takeWhile isSpaceQt).length
    if w = 0 then none
    else
      let s2 := s1.drop w
      if (cl "href=\"").isPrefixOf s2 then
        let cap := (s2.drop 6).takeWhile
          (fun c => !(c == '/' || c == ':' || c == '"' || c == '>' || c == '#'))
        if cap = [] then none else some (2 + w + 6 + cap.length, ())
      else none
  | _ => none

/-- The underscore-normalization pass. -/
def underscorePass (s : List Char) : List Char :=
  runGlobal underscoreMatchAt
    (fun m _ => m.take 9 ++ (m.drop 9).map (fun c => if c = '_' then ' ' else c)) s

/-! ### Pass 8: file-namespace link rewrite

`QString::replace` over `<a\s+href="([^:/"]*file%3A[^/"]+")`
(case-insensitive, line 612).  `fileTokSearch` finds the earliest
occurrence of `file%3A` (ci) inside the leading `[^:/"]*` run; as the
pattern characters themselves lie in that class, and the `[^/"]+` tail
always scans up to the same first `/` or `"`, the earliest occurrence
matches exactly when the pattern does. -/

/-- Earliest ci occurrence of `pat` before the first `:`/`/`/`"`. -/
def fileTokSearch (pat : List Char) : List Char → Option Nat
  | [] => none
  | c :: rest =>
    if ciPrefix pat (c :: rest) then some 0
    else if c == ':' || c == '/' || c == '"' then none
    else (fileTokSearch pat rest).map (· + 1)

/-- Matcher of the file-link pattern; the capture is group 1 (the
target including the closing quote). -/
def fileLinkMatchAt (s : List Char) : Option (Nat × List Char) :=
  if ciPrefix (cl "<a") s then
    let s1 := s.drop 2
    let w := (s1.takeWhile isSpaceQt).length
    if w = 0 then none
    else
      let s2 := s1.drop w
      if ciPrefix (cl "href=\"") s2 then
        let s3 := s2.drop 6
        match fileTokSearch (cl "file%3A") s3 with
        | some i =>
          let b := (s3.drop (i + 7)).takeWhile (fun c => !(c == '/' || c == '"'))
          if b = [] then none
          else
            match (s3.drop (i + 7)).drop b.length with
            | '"' :: _ => some (2 + w + 6 + i + 7 + b.length + 1, s3.take (i + 7 + b.length + 1))
            | _ => none
        | none => none
      else none
  else none

/-- The file-link pass; `url` is the dictionary's raw endpoint URL. -/
def fileLinkPass (url : List Char) (s : List Char) : List Char :=
  runGlobal fileLinkMatchAt
    (fun _ capture => backrefSub (cl "<a href=\"" ++ url ++ cl "/index.php?title=\\1") capture) s

/-! ### Pass 9: srcset fixup

Loop over ` srcset\s*=\s*"/[^"]+"` (line 626); inside each matched
attribute `//` is completed with the scheme. -/

/-- Matcher of ` srcset\s*=\s*"/[^"]+"`. -/
def srcsetMatchAt (s : List Char) : Option (Nat × Unit) :=
  match s with
  | ' ' :: s0 =>
    if (cl "srcset").isPrefixOf s0 then
      let s1 := s0.drop 6
      let w1 := (s1.takeWhile isSpaceQt).length
      match s1.drop w1 with
      | '=' :: s2 =>
        let w2 := (s2.takeWhile isSpaceQt).length
        match s2.drop w2 with
        | '"' :: '/' :: s3 =>
          let v := s3.takeWhile (· != '"')
          if v = [] then none
          else
            match s3.drop v.length with
            | '"' :: _ => some (1 + 6 + w1 + 1 + w2 + 1 + 1 + v.length + 1, ())
            | _ => none
        | _ => none
      | _ => none
    else none
  | _ => none

/-- The srcset pass. -/
def srcsetPass (scheme : List Char) (s : List Char) : List Char :=
  runGlobal srcsetMatchAt (fun m _ => replaceSub (cl "//") (scheme ++ cl "://") m) s

/-! ### Table-of-contents synthesis (`MediaWikiSectionsParser`)

The parser appends fixed markup pieces and attribute text to a QString.
The embedding keeps the pieces as a token list (`TocTok`) whose
rendering concatenates to exactly the string the code builds; counting
the structural open/close tokens is then well defined even when an
attribute value happens to contain markup. -/

/-- One `<s>` child of the `<sections>` element (attributes the code
reads; `none` is an absent attribute). -/
structure SectionElem where
  toclevel : Option (List Char)
  linkAnchor : Option (List Char)
  number : Option (List Char)
  line : Option (List Char)
deriving DecidableEq

/-- Markup pieces appended by the sections parser. -/
inductive TocTok where
  | header
  | openUl
  | openLi
  | closeLi
  | closeUlLi
  | closeUlDiv
  | text (s : List Char)
deriving DecidableEq

/-- The characters each token contributes to `tableOfContents`. -/
def renderTok : TocTok → List Char
  | .header =>
    cl "<div id='toc' class='toc' role='navigation' aria-labelledby='mw-toc-heading'><div class='toctitle'><h2 id='mw-toc-heading'>Contents</h2></div>"
  | .openUl => cl "\n<ul>\n"
  | .openLi => cl "<li>"
  | .closeLi => cl "</li>\n"
  | .closeUlLi => cl "</ul>\n</li>\n"
  | .closeUlDiv => cl "</ul>\n</div>"
  | .text s => s

/-- `MediaWikiSectionsParser::closeListTags`: close the previous item,
then one list+item pair per level above `currentLevel`. -/
def closeListTags (currentLevel prev : Int) : List TocTok :=
  TocTok.closeLi :: List.replicate (prev - currentLevel).toNat TocTok.closeUlLi

/-- `MediaWikiSectionsParser::addListLevel`: tokens emitted for one
section level plus the new `previousLevel`; `none` models the `false`
return (abort). -/
def addListLevel (prev : Int) (levelString : List Char) : Option (List TocTok × Int) :=
  match qtToInt levelString with
  | none => none
  | some level =>
    if level ≤ 0 then none
    else if prev + 1 < level then none
    else if level = prev + 1 then some ([TocTok.openUl, TocTok.openLi], level)
    else some (closeListTags level prev ++ [TocTok.openLi], level)

/-- The anchor markup for one section (`<a href='#...'>number line</a>`). -/
def sectionToks (sec : SectionElem) : List TocTok :=
  [TocTok.text (cl "<a href='#"), TocTok.text (attrD sec.linkAnchor), TocTok.text (cl "'>"),
   TocTok.text (attrD sec.number), TocTok.text (cl " "), TocTok.text (attrD sec.line),
   TocTok.text (cl "</a>")]

/-- The do-while loop of `generateTableOfContents`: `none` when some
`addListLevel` call aborted (in which case the whole ToC is cleared). -/
def tocLoop (prev : Int) : List SectionElem → Option (List TocTok × Int)
  | [] => some ([], prev)
  | sec :: rest =>
    match addListLevel prev (attrD sec.toclevel) with
    | none => none
    | some (toks, prev1) =>
      match tocLoop prev1 rest with
      | none => none
      | some (more, pf) => some (toks ++ sectionToks sec ++ more, pf)

/-- Token list of `MediaWikiSectionsParser::generateTableOfContents`:
empty when there is no `<s>` child or when synthesis aborted. -/
def tocTokens (secs : List SectionElem) : List TocTok :=
  match secs with
  | [] => []
  | _ =>
    match tocLoop 0 secs with
    | none => []
    | some (toks, pf) =>
      TocTok.header :: (toks ++ closeListTags 1 pf ++ [TocTok.closeUlDiv])

/-- The generated `tableOfContents` string. -/
def generateTableOfContents (secs : List SectionElem) : List Char :=
  ((tocTokens secs).map renderTok).flatten

/-- The empty-ToC indicator searched for in the article body. -/
def emptyTocIndicator : List Char := cl "<meta property=\"mw:PageProp/toc\" />"

/-- The `api/parse` element: the attributes and children
`requestFinished` reads (`none` models an absent attribute/child). -/
structure ParseElem where
  revid : Option (List Char)
  pageid : Option (List Char)
  text : Option (List Char)
  sections : Option (List SectionElem)
deriving DecidableEq

/-- `MediaWikiSectionsParser::generateTableOfContentsIfEmpty`: when the
indicator occurs and a `<sections>` element exists, splice the
generated ToC (possibly empty, if synthesis aborted) over the
indicator. -/
def generateTableOfContentsIfEmpty (parse : ParseElem) (article : List Char) : List Char :=
  match indexOfSub emptyTocIndicator article with
  | none => article
  | some i =>
    match parse.sections with
    | none => article
    | some secs => replaceAt i emptyTocIndicator.length (generateTableOfContents secs) article

/-- Whether every `toclevel` parses to a positive integer that exceeds
the running previous level by at most one (the well-formedness the
sections parser enforces). -/
def wellFormedLevels (prev : Int) : List SectionElem → Bool
  | [] => true
  | sec :: rest =>
    match qtToInt (attrD sec.toclevel) with
    | none => false
    | some level =>
      if 0 < level ∧ level ≤ prev + 1 then wellFormedLevels level rest else false

/-- Structural `<ul>` opens / closes and `<li>` opens / closes per token. -/
def wUlOpen : TocTok → Nat
  | .openUl => 1
  | _ => 0

def wUlClose : TocTok → Nat
  | .closeUlLi => 1
  | .closeUlDiv => 1
  | _ => 0

def wLiOpen : TocTok → Nat
  | .openLi => 1
  | _ => 0

def wLiClose : TocTok → Nat
  | .closeLi => 1
  | .closeUlLi => 1
  | _ => 0

/-- Number of `<ul>` list tags the synthesizer opens. -/
def ulOpens (toks : List TocTok) : Nat := (toks.map wUlOpen).sum

/-- Number of `</ul>` list tags the synthesizer emits. -/
def ulCloses (toks : List TocTok) : Nat := (toks.map wUlClose).sum

/-- Number of `<li>` item tags the synthesizer opens. -/
def liOpens (toks : List TocTok) : Nat := (toks.map wLiOpen).sum

/-- Number of `</li>` item tags the synthesizer emits. -/
def liCloses (toks : List TocTok) : Nat := (toks.map wLiClose).sum

/-! ### The full content transform

The exact statement sequence of `requestFinished` (lines 500-654)
applied to one page's `text`, parameterized by the request-constant
strings: `scheme` (`wikiUrl.scheme()`), `wikiUrlStr` (the base URL with
path `/`), `url` (the raw endpoint URL) and the external audio
registrar `reg` with the dictionary id. -/

def transformArticle (scheme wikiUrlStr url dictId : List Char)
    (reg : List Char → List Char → List Char) (parse : ParseElem) (isRTL : Bool)
    (raw : List Char) : List Char :=
  let s1 := linkRewritePass raw
  let s2 := indexPhpPass wikiUrlStr s1
  let s3 := audioPass s2
  let s4 := audioUrlPass scheme dictId reg s3
  let s5 := srcProtoPass scheme s4
  let s6 := srcRootPass wikiUrlStr s5
  let s7 := wikiStripPass s6
  let s8 := underscorePass s7
  let s9 := fileLinkPass url s8
  let s10 := hrefProtoPass scheme s9
  let s11 := cssUrlProtoPass scheme s10
  let s12 := srcsetPass scheme s11
  let s13 := generateTableOfContentsIfEmpty parse s12
  (if isRTL then cl "<div class=\"mwiki\" dir=\"rtl\">" else cl "<div class=\"mwiki\">") ++
    s13 ++ cl "</div>"

/-! ### The per-request orchestration (`MediaWikiArticleRequest`)

One network reply is identified by its index in submission order
(query 0 is the primary word, queries 1.. are the alternates in their
given order — the constructor calls `addQuery` in exactly that order).
What a reply delivers once finished is a function of its index
(`ReqCtx.env`), covering transport errors, XML parse failures and
parsed documents. -/

/-- Result of `dd.setContent` on the reply payload. -/
inductive XmlBody where
  | malformed (errorStr : List Char) (errLine errCol : Int)
  | doc (apiParse : Option ParseElem)
deriving Inhabited

/-- Outcome of one network operation. -/
inductive ReplyResult where
  | transportError (msg : List Char)
  | ok (body : XmlBody)
deriving Inhabited

/-- Request-constant context: endpoint strings, dictionary identity,
directionality, the external audio registrar, and the network outcome
of each submitted query. -/
structure ReqCtx where
  url : List Char
  scheme : List Char
  wikiUrlStr : List Char
  dictId : List Char
  isRTL : Bool
  reg : List Char → List Char → List Char
  env : Nat → ReplyResult

/-- `MediaWikiArticleRequest::SmallSet::insert`: linear membership scan,
push_back on a miss; the Bool is the return value. -/
def smallSetInsert (elements : List Int) (x : Int) : List Int × Bool :=
  if x ∈ elements then (elements, false) else (elements ++ [x], true)

/-- The per-request fields the drain loop mutates. -/
structure DrainAcc where
  data : List Char
  hasAnyData : Bool
  errorString : List Char
  addedPageIds : List Int
  updated : Bool
deriving Inhabited

/-- The error text `tr("XML parse error: %1 at %2,%3")` formatted. -/
def xmlErrorMsg (es : List Char) (l c : Int) : List Char :=
  cl "XML parse error: " ++ es ++ cl " at " ++ (toString l).toList ++ cl "," ++ (toString c).toList

/-- Processing of one finished reply inside the drain loop of
`requestFinished` (lines 476-676): transport errors and XML parse
failures overwrite `errorString`; otherwise the page is appended only
when the `api/parse` node exists, `revid` differs from `"0"`, the
page id is new to the dedup set, and a `text` child exists.  The dedup
insertion happens as soon as the first two conditions hold. -/
def stepReply (ctx : ReqCtx) (acc : DrainAcc) (i : Nat) : DrainAcc :=
  match ctx.env i with
  | .transportError m => { acc with errorString := m }
  | .ok (.malformed es l c) => { acc with errorString := xmlErrorMsg es l c }
  | .ok (.doc none) => acc
  | .ok (.doc (some pn)) =>
    if attrD pn.revid = cl "0" then acc
    else
      let ins := smallSetInsert acc.addedPageIds (qtToLongLong (attrD pn.pageid))
      if ins.2 then
        match pn.text with
        | none => { acc with addedPageIds := ins.1 }
        | some t =>
          { acc with
            addedPageIds := ins.1,
            data := acc.data ++
              transformArticle ctx.scheme ctx.wikiUrlStr ctx.url ctx.dictId ctx.reg pn ctx.isRTL t,
            hasAnyData := true,
            updated := true }
      else { acc with addedPageIds := ins.1 }

/-- Mark the first queue entry whose reply pointer matches (the find
loop at lines 454-462). -/
def markFirst (r : Nat) : List (Nat × Bool) → List (Nat × Bool)
  | [] => []
  | (i, f) :: rest => if i = r then (i, true) :: rest else (i, f) :: markFirst r rest

/-- The drain loop (line 472): pop and process entries from the front
while the front entry is marked finished. -/
def drainReplies (ctx : ReqCtx) : List (Nat × Bool) → DrainAcc → List (Nat × Bool) × DrainAcc
  | [], acc => ([], acc)
  | (i, true) :: rest, acc => drainReplies ctx rest (stepReply ctx acc i)
  | (i, false) :: rest, acc => ((i, false) :: rest, acc)

/-- Observable request state: the queue, the shared buffer and flags,
and counters for the `finish`/`update` signals. -/
structure ReqState where
  netReplies : List (Nat × Bool)
  data : List Char
  hasAnyData : Bool
  errorString : List Char
  addedPageIds : List Int
  finished : Bool
  finishCount : Nat
  updateCount : Nat
deriving DecidableEq

/-- Modelled from the spec: `Dictionary::Request::finish` (the base
class lives outside src/) marks the request finished and emits the
completion signal; `isFinished()` reads the flag. -/
def finishReq (st : ReqState) : ReqState :=
  { st with finished := true, finishCount := st.finishCount + 1 }

/-- `MediaWikiArticleRequest::cancel` simply calls `finish()`. -/
def cancelReq (st : ReqState) : ReqState := finishReq st

/-- `MediaWikiArticleRequest::requestFinished` for the completion event
of reply `r`: ignore the event when already finished or when the reply
is not ours; otherwise mark the reply finished, drain the completed
front of the queue, then finish (empty queue) or signal an update. -/
def requestFinished (ctx : ReqCtx) (r : Nat) (st : ReqState) : ReqState :=
  if st.finished then st
  else if (st.netReplies.map Prod.fst).contains r = false then st
  else
    let res := drainReplies ctx (markFirst r st.netReplies)
      { data := st.data, hasAnyData := st.hasAnyData, errorString := st.errorString,
        addedPageIds := st.addedPageIds, updated := false }
    let st1 : ReqState :=
      { st with
        netReplies := res.1, data := res.2.data, hasAnyData := res.2.hasAnyData,
        errorString := res.2.errorString, addedPageIds := res.2.addedPageIds }
    if res.1.isEmpty then finishReq st1
    else if res.2.updated then { st1 with updateCount := st1.updateCount + 1 }
    else st1

/-- State right after the `MediaWikiArticleRequest` constructor issued
`n` queries (the primary word plus alternates, submission order). -/
def initState (n : Nat) : ReqState :=
  { netReplies := (List.range n).map (fun i => (i, false)), data := [], hasAnyData := false,
    errorString := [], addedPageIds := [], finished := false, finishCount := 0, updateCount := 0 }

/-- Deliver a sequence of completion events. -/
def runEvents (ctx : ReqCtx) (evs : List Nat) (st : ReqState) : ReqState :=
  evs.foldl (fun s r => requestFinished ctx r s) st

/-- The empty accumulator the request starts from. -/
def initAcc : DrainAcc :=
  { data := [], hasAnyData := false, errorString := [], addedPageIds := [], updated := false }

/-- Queries 0..k-1 processed in submission order. -/
def accOf (ctx : ReqCtx) (k : Nat) : DrainAcc :=
  (List.range' 0 k).foldl (stepReply ctx) initAcc

/-- The fragment (with its page id) query `i` contributes given the
dedup set contents, `none` when the reply failed, the page was missing,
a duplicate, or textless. -/
def fragOf (ctx : ReqCtx) (ids : List Int) (i : Nat) : Option (Int × List Char) :=
  match ctx.env i with
  | .ok (.doc (some pn)) =>
    if attrD pn.revid = cl "0" then none
    else
      let p := qtToLongLong (attrD pn.pageid)
      if p ∈ ids then none
      else
        match pn.text with
        | some t =>
          some (p, transformArticle ctx.scheme ctx.wikiUrlStr ctx.url ctx.dictId ctx.reg pn
            ctx.isRTL t)
        | none => none
  | _ => none

/-- How query `i` grows the dedup set. -/
def idsAfter (ctx : ReqCtx) (ids : List Int) (i : Nat) : List Int :=
  match ctx.env i with
  | .ok (.doc (some pn)) =>
    if attrD pn.revid = cl "0" then ids
    else (smallSetInsert ids (qtToLongLong (attrD pn.pageid))).1
  | _ => ids

/-- How query `i` updates the error string. -/
def errAfter (ctx : ReqCtx) (e : List Char) (i : Nat) : List Char :=
  match ctx.env i with
  | .transportError m => m
  | .ok (.malformed es l c) => xmlErrorMsg es l c
  | _ => e

/-- The (page id, fragment) pairs the queries of `l`, processed in that
order, append to the buffer. -/
def fragsFrom (ctx : ReqCtx) (ids : List Int) : List Nat → List (Int × List Char)
  | [] => []
  | i :: rest =>
    match fragOf ctx ids i with
    | some pf => pf :: fragsFrom ctx (idsAfter ctx ids i) rest
    | none => fragsFrom ctx (idsAfter ctx ids i) rest

/-- Length of the contiguous run of completed queries starting at id
`k` with `m` queries remaining: how far the drain can go. -/
def drainedCount (evs : List Nat) : Nat → Nat → Nat
  | _, 0 => 0
  | k, m + 1 => if k ∈ evs then drainedCount evs (k + 1) m + 1 else 0

/-! ### Length guard of `MediaWikiDictionary::getArticle` /
`prefixMatch` -/

/-- Observable outcome of `MediaWikiDictionary::getArticle`: either the
immediately finished empty `DataRequestInstant( false )` (modelled from
the spec: the instant-request class lives outside src/), or an article
request whose constructor issues one network query per listed term, in
order. -/
inductive GetArticleResult where
  | instantEmpty
  | request (queries : List (List Char))
deriving DecidableEq

/-- `getArticle` (line 701): the guard tests only the primary word's
length; the constructor then queries the word and every alternate. -/
def getArticle (word : List Char) (alts : List (List Char)) : GetArticleResult :=
  if word.length > 80 then GetArticleResult.instantEmpty
  else GetArticleResult.request (word :: alts)

/-- Observable outcome of `MediaWikiDictionary::prefixMatch`. -/
inductive PrefixSearchResult where
  | instantEmpty
  | request (term : List Char)
deriving DecidableEq

/-- `prefixMatch` (line 686): same length guard, single query. -/
def prefixMatchModel (word : List Char) : PrefixSearchResult :=
  if word.length > 80 then PrefixSearchResult.instantEmpty
  else PrefixSearchResult.request word

/-! ### Derived notions used by the statements -/

/-- The buffer content query `i` contributes (empty when nothing is
appended). -/
def fragDataOf (ctx : ReqCtx) (ids : List Int) (i : Nat) : List Char :=
  match fragOf ctx ids i with
  | some pf => pf.2
  | none => []

/-- Error string after processing the queries of `l` in order. -/
def lastErrOf (ctx : ReqCtx) (l : List Nat) : List Char :=
  l.foldl (errAfter ctx) []

/-- Length of the run of set members starting at `k`, within `m`
entries. -/
def runLenB (S : Nat → Bool) : Nat → Nat → Nat
  | _, 0 => 0
  | k, m + 1 => if S k then runLenB S (k + 1) m + 1 else 0

/-- The state invariant tying a request to in-order processing: some
drain position `k` exists such that the queue holds exactly the
not-yet-drained queries in submission order with their completion
flags, everything before `k` is complete, the front (if any) is
incomplete, the shared fields equal in-order processing of the first
`k` queries, and the finish signal fired exactly when the queue
emptied. -/
def ReqInv (ctx : ReqCtx) (n : Nat) (S : Nat → Bool) (st : ReqState) : Prop :=
  ∃ k, k ≤ n ∧
    st.netReplies = (List.range' k (n - k)).map (fun i => (i, S i)) ∧
    (∀ i, i < k → S i = true) ∧
    (k < n → S k = false) ∧
    st.data = (accOf ctx k).data ∧
    st.hasAnyData = (accOf ctx k).hasAnyData ∧
    st.errorString = (accOf ctx k).errorString ∧
    st.addedPageIds = (accOf ctx k).addedPageIds ∧
    st.finished = decide (k = n) ∧
    st.finishCount = (if k = n then 1 else 0)

/-! ### The transform pipeline as a list of named passes (spec §4.3)

The spec groups the four scheme-completion `QString::replace` calls
(lines 593, 595, 618, 621) into one pass; the others map one to one.
Each pass is paired with its match predicate. -/

/-- One content-transform pass with its match predicate. -/
structure TPass where
  run : List Char → List Char
  hits : List Char → Bool

/-- The grouped scheme-completion pass, in the code's relative order. -/
def schemeCompletionPass (scheme wikiUrlStr : List Char) (s : List Char) : List Char :=
  cssUrlProtoPass scheme (hrefProtoPass scheme (srcRootPass wikiUrlStr (srcProtoPass scheme s)))

/-- Wiki-path stripping as a pipeline entry. -/
def wikiStripEntry : TPass :=
  ⟨wikiStripPass, fun s => containsSub (cl "<a href=\"/wiki/") s⟩

/-- The ordered pipeline of content-transform passes. -/
def contentPasses (scheme wikiUrlStr url dictId : List Char)
    (reg : List Char → List Char → List Char) : List TPass :=
  [⟨linkRewritePass, fun s => (findFirst linkMatchAt s).isSome⟩,
   ⟨indexPhpPass wikiUrlStr, fun s => (findFirst indexPhpMatchAt s).isSome⟩,
   ⟨audioPass, fun s => (findFirst audioMatchAt s).isSome⟩,
   ⟨audioUrlPass scheme dictId reg, fun s => (findFirst audioUrlMatchAt s).isSome⟩,
   ⟨schemeCompletionPass scheme wikiUrlStr, fun s =>
      containsSub (cl " src=\"//") s || containsSub (cl "src=\"/") s ||
      containsSub (cl " href=\"//") s || containsSub (cl "url(\"//") s⟩,
   wikiStripEntry,
   ⟨underscorePass, fun s => (findFirst underscoreMatchAt s).isSome⟩,
   ⟨fileLinkPass url, fun s => (findFirst fileLinkMatchAt s).isSome⟩,
   ⟨srcsetPass scheme, fun s => (findFirst srcsetMatchAt s).isSome⟩]

/-! ### Concrete inputs used by witnesses and counterexamples -/

/-- A parse element with an absent `revid` attribute, a fresh page id
and a text body. -/
def cexParseNoRevid : ParseElem :=
  { revid := none, pageid := some (cl "5"), text := some (cl "X"), sections := none }

/-- A context whose every reply parses to `cexParseNoRevid`. -/
def cexCtxNoRevid : ReqCtx :=
  { url := cl "https://en.wikipedia.org/w", scheme := cl "https",
    wikiUrlStr := cl "https://en.wikipedia.org/", dictId := cl "d", isRTL := false,
    reg := fun _ _ => [], env := fun _ => ReplyResult.ok (XmlBody.doc (some cexParseNoRevid)) }

/-- A parse element carrying the `revid` sentinel `"0"`. -/
def parseZeroRevid : ParseElem :=
  { revid := some (cl "0"), pageid := some (cl "5"), text := some (cl "X"), sections := none }

/-- A context whose every reply parses to `parseZeroRevid`. -/
def ctxZeroRevid : ReqCtx :=
  { cexCtxNoRevid with env := fun _ => ReplyResult.ok (XmlBody.doc (some parseZeroRevid)) }

/-- A found page (revid `"1"`, page id 7) without a `text` child. -/
def parseTextless : ParseElem :=
  { revid := some (cl "1"), pageid := some (cl "7"), text := none, sections := none }

/-- The same page id 7, this time with a text body. -/
def parseWithText : ParseElem :=
  { revid := some (cl "1"), pageid := some (cl "7"), text := some (cl "Y"), sections := none }

/-- Query 0 resolves to the textless page, query 1 to the same page id
with text. -/
def ctxTextless : ReqCtx :=
  { cexCtxNoRevid with
    env := fun i =>
      if i = 0 then ReplyResult.ok (XmlBody.doc (some parseTextless))
      else ReplyResult.ok (XmlBody.doc (some parseWithText)) }

/-- A context where every reply fails in transport. -/
def ctxAllFail : ReqCtx :=
  { cexCtxNoRevid with env := fun _ => ReplyResult.transportError (cl "boom") }

/-- Concrete section descriptors with toclevels 1, 2, 2, 3, 1. -/
def sampleSections : List SectionElem :=
  [{ toclevel := some (cl "1"), linkAnchor := some (cl "A"), number := some (cl "1"),
     line := some (cl "Alpha") },
   { toclevel := some (cl "2"), linkAnchor := some (cl "B"), number := some (cl "1.1"),
     line := some (cl "Beta") },
   { toclevel := some (cl "2"), linkAnchor := some (cl "C"), number := some (cl "1.2"),
     line := some (cl "Gamma") },
   { toclevel := some (cl "3"), linkAnchor := some (cl "D"), number := some (cl "1.2.1"),
     line := some (cl "Delta") },
   { toclevel := some (cl "1"), linkAnchor := some (cl "E"), number := some (cl "2"),
     line := some (cl "Eps") }]

/-- Section descriptors with the illegal level jump 1 → 3. -/
def jumpSections : List SectionElem :=
  [{ toclevel := some (cl "1"), linkAnchor := some (cl "A"), number := some (cl "1"),
     line := some (cl "Alpha") },
   { toclevel := some (cl "3"), linkAnchor := some (cl "B"), number := some (cl "1.1"),
     line := some (cl "Beta") }]

/-! ## Helper lemmas -/

theorem globalRewrite_eq_of_none {α : Type} (f : List Char → Option (Nat × α))
    (g : List Char → α → List Char) (fuel : Nat) (s : List Char)
    (h : findFirst f s = none) : globalRewrite f g fuel s = s := by
  cases fuel with
  | zero => rfl
  | succ m => simp [globalRewrite, h]

theorem runGlobal_eq_of_none {α : Type} (f : List Char → Option (Nat × α))
    (g : List Char → α → List Char) (s : List Char)
    (h : findFirst f s = none) : runGlobal f g s = s :=
  globalRewrite_eq_of_none f g s.length s h

theorem findFirst_subMatcher_eq_none (pat : List Char) :
    ∀ s : List Char, containsSub pat s = false → findFirst (subMatcher pat) s = none := by
  intro s
  induction s with
  | nil =>
    intro h
    have hpat : pat ≠ [] := by
      intro he
      subst he
      simp [containsSub, indexOfSub] at h
    cases pat with
    | nil => exact absurd rfl hpat
    | cons c cs => simp [findFirst, subMatcher, List.isPrefixOf]
  | cons c rest ih =>
    intro h
    simp only [containsSub, indexOfSub] at h
    by_cases hpre : pat.isPrefixOf (c :: rest)
    · rw [if_pos hpre] at h
      simp at h
    · rw [if_neg hpre] at h
      have hrest : containsSub pat rest = false := by
        cases hio : indexOfSub pat rest with
        | none => simp [containsSub, hio]
        | some v =>
          rw [hio] at h
          simp at h
      have hrest := ih hrest
      have hsm : subMatcher pat (c :: rest) = none := by
        rw [subMatcher, if_neg]
        rintro ⟨-, h2⟩
        exact hpre h2
      simp [findFirst, hsm, hrest]

theorem replaceSub_eq_of_not_contains (pat rep s : List Char)
    (h : containsSub pat s = false) : replaceSub pat rep s = s :=
  runGlobal_eq_of_none _ _ s (findFirst_subMatcher_eq_none pat s h)

theorem stepReply_eq (ctx : ReqCtx) (acc : DrainAcc) (i : Nat) :
    stepReply ctx acc i =
      { data := acc.data ++ fragDataOf ctx acc.addedPageIds i,
        hasAnyData := acc.hasAnyData || (fragOf ctx acc.addedPageIds i).isSome,
        errorString := errAfter ctx acc.errorString i,
        addedPageIds := idsAfter ctx acc.addedPageIds i,
        updated := acc.updated || (fragOf ctx acc.addedPageIds i).isSome } := by
  cases henv : ctx.env i with
  | transportError m =>
    simp [stepReply, fragDataOf, fragOf, idsAfter, errAfter, henv]
  | ok body =>
    cases body with
    | malformed es l c =>
      simp [stepReply, fragDataOf, fragOf, idsAfter, errAfter, henv]
    | doc po =>
      cases po with
      | none => simp [stepReply, fragDataOf, fragOf, idsAfter, errAfter, henv]
      | some pn =>
        by_cases hrev : attrD pn.revid = cl "0"
        · simp [stepReply, fragDataOf, fragOf, idsAfter, errAfter, henv, hrev]
        · by_cases hmem : qtToLongLong (attrD pn.pageid) ∈ acc.addedPageIds
          · simp [stepReply, fragDataOf, fragOf, idsAfter, errAfter, henv, hrev,
              smallSetInsert, hmem]
          · cases htext : pn.text with
            | none =>
              simp [stepReply, fragDataOf, fragOf, idsAfter, errAfter, henv, hrev,
                smallSetInsert, hmem, htext]
            | some t =>
              simp [stepReply, fragDataOf, fragOf, idsAfter, errAfter, henv, hrev,
                smallSetInsert, hmem, htext]

theorem foldl_stepReply_spec (ctx : ReqCtx) :
    ∀ (l : List Nat) (acc : DrainAcc),
      (l.foldl (stepReply ctx) acc).data =
        acc.data ++ ((fragsFrom ctx acc.addedPageIds l).map Prod.snd).flatten ∧
      (l.foldl (stepReply ctx) acc).addedPageIds = l.foldl (idsAfter ctx) acc.addedPageIds ∧
      (l.foldl (stepReply ctx) acc).errorString = l.foldl (errAfter ctx) acc.errorString := by
  intro l
  induction l with
  | nil => simp [fragsFrom]
  | cons i rest ih =>
    intro acc
    rw [List.foldl_cons, stepReply_eq ctx acc i]
    obtain ⟨hd, hi, he⟩ := ih
      { data := acc.data ++ fragDataOf ctx acc.addedPageIds i,
        hasAnyData := acc.hasAnyData || (fragOf ctx acc.addedPageIds i).isSome,
        errorString := errAfter ctx acc.errorString i,
        addedPageIds := idsAfter ctx acc.addedPageIds i,
        updated := acc.updated || (fragOf ctx acc.addedPageIds i).isSome }
    refine ⟨?_, ?_, ?_⟩
    · rw [hd]
      cases hf : fragOf ctx acc.addedPageIds i with
      | none => simp [fragsFrom, fragDataOf, hf]
      | some pf => simp [fragsFrom, fragDataOf, hf]
    · rw [hi]
      simp
    · rw [he]
      simp

theorem idsAfter_sub (ctx : ReqCtx) (ids : List Int) (i : Nat) :
    ids ⊆ idsAfter ctx ids i := by
  cases henv : ctx.env i with
  | transportError m => simp [idsAfter, henv]
  | ok body =>
    cases body with
    | malformed es l c => simp [idsAfter, henv]
    | doc po =>
      cases po with
      | none => simp [idsAfter, henv]
      | some pn =>
        by_cases hrev : attrD pn.revid = cl "0"
        · simp [idsAfter, henv, hrev]
        · by_cases hmem : qtToLongLong (attrD pn.pageid) ∈ ids
          · simp [idsAfter, henv, hrev, smallSetInsert, hmem]
          · simp [idsAfter, henv, hrev, smallSetInsert, hmem]

theorem fragOf_some_props (ctx : ReqCtx) (ids : List Int) (i : Nat)
    (pf : Int × List Char) (h : fragOf ctx ids i = some pf) :
    pf.1 ∉ ids ∧ idsAfter ctx ids i = ids ++ [pf.1] := by
  cases henv : ctx.env i with
  | transportError m => simp [fragOf, henv] at h
  | ok body =>
    cases body with
    | malformed es l c => simp [fragOf, henv] at h
    | doc po =>
      cases po with
      | none => simp [fragOf, henv] at h
      | some pn =>
        by_cases hrev : attrD pn.revid = cl "0"
        · simp [fragOf, henv, hrev] at h
        · by_cases hmem : qtToLongLong (attrD pn.pageid) ∈ ids
          · simp [fragOf, henv, hrev, hmem] at h
          · cases htext : pn.text with
            | none => simp [fragOf, henv, hrev, hmem, htext] at h
            | some t =>
              simp only [fragOf, henv, hrev, hmem, htext, if_neg, if_false] at h
              injection h with h
              subst h
              exact ⟨hmem, by simp [idsAfter, henv, hrev, smallSetInsert, hmem]⟩

theorem fragsFrom_pages_nodup (ctx : ReqCtx) :
    ∀ (l : List Nat) (ids : List Int),
      ((fragsFrom ctx ids l).map Prod.fst).Nodup ∧
      ∀ p ∈ (fragsFrom ctx ids l).map Prod.fst, p ∉ ids := by
  intro l
  induction l with
  | nil => simp [fragsFrom]
  | cons i rest ih =>
    intro ids
    cases hf : fragOf ctx ids i with
    | none =>
      simp only [fragsFrom, hf]
      refine ⟨(ih (idsAfter ctx ids i)).1, ?_⟩
      intro p hp hmem
      exact (ih (idsAfter ctx ids i)).2 p hp (idsAfter_sub ctx ids i hmem)
    | some pf =>
      obtain ⟨hnew, hafter⟩ := fragOf_some_props ctx ids i pf hf
      simp only [fragsFrom, hf, List.map_cons, List.nodup_cons, List.mem_cons]
      obtain ⟨ihn, ihm⟩ := ih (idsAfter ctx ids i)
      refine ⟨⟨?_, ihn⟩, ?_⟩
      · intro hin
        have := ihm pf.1 hin
        rw [hafter] at this
        exact this (List.mem_append_right _ (List.mem_singleton.mpr rfl))
      · rintro p (rfl | hp)
        · exact hnew
        · intro hmem
          exact ihm p hp (idsAfter_sub ctx ids i hmem)

theorem requestFinished_finished_id (ctx : ReqCtx) (r : Nat) (st : ReqState)
    (h : st.finished = true) : requestFinished ctx r st = st := by
  simp [requestFinished, h]

theorem runEvents_finished_id (ctx : ReqCtx) :
    ∀ (evs : List Nat) (st : ReqState), st.finished = true → runEvents ctx evs st = st := by
  intro evs
  induction evs with
  | nil => intro st _; rfl
  | cons e rest ih =>
    intro st h
    show runEvents ctx rest (requestFinished ctx e st) = st
    rw [requestFinished_finished_id ctx e st h]
    exact ih st h

theorem closeListTags_counts (lv prev : Int) :
    ulOpens (closeListTags lv prev) = 0 ∧
    ulCloses (closeListTags lv prev) = (prev - lv).toNat ∧
    liOpens (closeListTags lv prev) = 0 ∧
    liCloses (closeListTags lv prev) = 1 + (prev - lv).toNat := by
  simp [closeListTags, ulOpens, ulCloses, liOpens, liCloses, wUlOpen, wUlClose, wLiOpen,
    wLiClose, List.map_replicate, List.sum_replicate]

theorem sectionToks_counts (sec : SectionElem) :
    ulOpens (sectionToks sec) = 0 ∧ ulCloses (sectionToks sec) = 0 ∧
    liOpens (sectionToks sec) = 0 ∧ liCloses (sectionToks sec) = 0 := by
  simp [sectionToks, ulOpens, ulCloses, liOpens, liCloses, wUlOpen, wUlClose, wLiOpen, wLiClose]

theorem tocLoop_wf_spec :
    ∀ (secs : List SectionElem) (prev : Int), wellFormedLevels prev secs = true →
      ∃ toks pf, tocLoop prev secs = some (toks, pf) ∧
        (ulOpens toks : Int) - ulCloses toks = pf - prev ∧
        (liOpens toks : Int) - liCloses toks = pf - prev ∧
        (secs = [] → pf = prev) ∧ (secs ≠ [] → 1 ≤ pf) := by
  intro secs
  induction secs with
  | nil =>
    intro prev _
    exact ⟨[], prev, rfl, by simp [ulOpens, ulCloses], by simp [liOpens, liCloses],
      fun _ => rfl, fun h => absurd rfl h⟩
  | cons sec rest ih =>
    intro prev hw
    rw [wellFormedLevels] at hw
    cases hq : qtToInt (attrD sec.toclevel) with
    | none =>
      simp only [hq] at hw
      exact Bool.noConfusion hw
    | some level =>
      simp only [hq] at hw
      by_cases hc : 0 < level ∧ level ≤ prev + 1
      · rw [if_pos hc] at hw
        obtain ⟨more, pf, hloop, hul, hli, hpf0, hpf1⟩ := ih level hw
        have hpf : 1 ≤ pf := by
          rcases eq_or_ne rest [] with rfl | hne
          · rw [hpf0 rfl]
            exact hc.1
          · exact hpf1 hne
        obtain ⟨su, sc, sl, slc⟩ := sectionToks_counts sec
        by_cases hlev : level = prev + 1
        · have haddeq : addListLevel prev (attrD sec.toclevel) =
              some ([TocTok.openUl, TocTok.openLi], level) := by
            simp only [addListLevel, hq]
            rw [if_neg (by omega : ¬ level ≤ 0),
              if_neg (by omega : ¬ prev + 1 < level), if_pos hlev]
          refine ⟨[TocTok.openUl, TocTok.openLi] ++ sectionToks sec ++ more, pf, ?_, ?_, ?_,
            by rintro ⟨⟩, fun _ => hpf⟩
          · simp only [tocLoop]
            rw [haddeq]
            simp [hloop]
          · have e1 : ulOpens ([TocTok.openUl, TocTok.openLi] ++ sectionToks sec ++ more) =
                1 + (ulOpens (sectionToks sec) + ulOpens more) := by
              simp [ulOpens, wUlOpen]
            have e2 : ulCloses ([TocTok.openUl, TocTok.openLi] ++ sectionToks sec ++ more) =
                ulCloses (sectionToks sec) + ulCloses more := by
              simp [ulCloses, wUlClose]
            rw [e1, e2, su, sc]
            omega
          · have e1 : liOpens ([TocTok.openUl, TocTok.openLi] ++ sectionToks sec ++ more) =
                1 + (liOpens (sectionToks sec) + liOpens more) := by
              simp [liOpens, wLiOpen]
            have e2 : liCloses ([TocTok.openUl, TocTok.openLi] ++ sectionToks sec ++ more) =
                liCloses (sectionToks sec) + liCloses more := by
              simp [liCloses, wLiClose]
            rw [e1, e2, sl, slc]
            omega
        · have hlp : level ≤ prev := by omega
          have haddeq : addListLevel prev (attrD sec.toclevel) =
              some (closeListTags level prev ++ [TocTok.openLi], level) := by
            simp only [addListLevel, hq]
            rw [if_neg (by omega : ¬ level ≤ 0),
              if_neg (by omega : ¬ prev + 1 < level), if_neg hlev]
          obtain ⟨cu, cc, clo, clc⟩ := closeListTags_counts level prev
          refine ⟨(closeListTags level prev ++ [TocTok.openLi]) ++ sectionToks sec ++ more, pf,
            ?_, ?_, ?_, by rintro ⟨⟩, fun _ => hpf⟩
          · simp only [tocLoop]
            rw [haddeq]
            simp [hloop]
          · have e1 : ulOpens ((closeListTags level prev ++ [TocTok.openLi]) ++
                sectionToks sec ++ more) =
                (ulOpens (closeListTags level prev) + ulOpens (sectionToks sec)) + ulOpens more := by
              simp [ulOpens, wUlOpen]
              omega
            have e2 : ulCloses ((closeListTags level prev ++ [TocTok.openLi]) ++
                sectionToks sec ++ more) =
                (ulCloses (closeListTags level prev) + ulCloses (sectionToks sec)) + ulCloses more := by
              simp [ulCloses, wUlClose]
              omega
            rw [e1, e2, cu, cc, su, sc]
            omega
          · have e1 : liOpens ((closeListTags level prev ++ [TocTok.openLi]) ++
                sectionToks sec ++ more) =
                (liOpens (closeListTags level prev) + 1 + liOpens (sectionToks sec)) + liOpens more := by
              simp [liOpens, wLiOpen]
              omega
            have e2 : liCloses ((closeListTags level prev ++ [TocTok.openLi]) ++
                sectionToks sec ++ more) =
                (liCloses (closeListTags level prev) + liCloses (sectionToks sec)) + liCloses more := by
              simp [liCloses, wLiClose]
              omega
            rw [e1, e2, clo, clc, sl, slc]
            omega
      · rw [if_neg hc] at hw
        exact absurd hw (by simp)


theorem tocLoop_none_of_malformed :
    ∀ (secs : List SectionElem) (prev : Int), wellFormedLevels prev secs = false →
      tocLoop prev secs = none := by
  intro secs
  induction secs with
  | nil =>
    intro prev h
    simp [wellFormedLevels] at h
  | cons sec rest ih =>
    intro prev h
    rw [wellFormedLevels] at h
    cases hq : qtToInt (attrD sec.toclevel) with
    | none =>
      simp [tocLoop, addListLevel, hq]
    | some level =>
      simp only [hq] at h
      by_cases hc : 0 < level ∧ level ≤ prev + 1
      · rw [if_pos hc] at h
        have hrest := ih level h
        by_cases hlev : level = prev + 1
        · have haddeq : addListLevel prev (attrD sec.toclevel) =
              some ([TocTok.openUl, TocTok.openLi], level) := by
            simp only [addListLevel, hq]
            rw [if_neg (by omega : ¬ level ≤ 0),
              if_neg (by omega : ¬ prev + 1 < level), if_pos hlev]
          simp only [tocLoop]
          rw [haddeq]
          simp [hrest]
        · have haddeq : addListLevel prev (attrD sec.toclevel) =
              some (closeListTags level prev ++ [TocTok.openLi], level) := by
            simp only [addListLevel, hq]
            rw [if_neg (by omega : ¬ level ≤ 0),
              if_neg (by omega : ¬ prev + 1 < level), if_neg hlev]
          simp only [tocLoop]
          rw [haddeq]
          simp [hrest]
      · have haddnone : addListLevel prev (attrD sec.toclevel) = none := by
          by_cases h0 : level ≤ 0
          · simp [addListLevel, hq, h0]
          · simp [addListLevel, hq, h0, show prev + 1 < level by omega]
        simp [tocLoop, haddnone]

theorem contains_eq_decide_mem (l : List Nat) (a : Nat) : l.contains a = decide (a ∈ l) := by
  by_cases h : a ∈ l <;> simp [h]

theorem range'_add_split (k j : Nat) :
    List.range' 0 (k + j) = List.range' 0 k ++ List.range' k j := by
  have := List.range'_append 0 k j 1
  simp at this
  rw [Nat.add_comm j k] at this
  exact this.symm

theorem accOf_add (ctx : ReqCtx) (k j : Nat) :
    accOf ctx (k + j) = (List.range' k j).foldl (stepReply ctx) (accOf ctx k) := by
  rw [accOf, accOf, range'_add_split, List.foldl_append]

theorem markFirst_map_range (S : Nat → Bool) (r : Nat) :
    ∀ (m k : Nat),
      markFirst r ((List.range' k m).map (fun i => (i, S i))) =
        (List.range' k m).map (fun i => (i, S i || decide (i = r))) := by
  intro m
  induction m with
  | zero => intro k; rfl
  | succ m ih =>
    intro k
    rw [List.range'_succ]
    simp only [List.map_cons]
    by_cases hk : k = r
    · subst hk
      rw [markFirst, if_pos rfl]
      refine congrArg₂ List.cons (by simp) ?_
      apply List.map_congr_left
      intro i hi
      have hik : i ≠ k := by
        have := (List.mem_range'_1.mp hi).1
        omega
      simp [hik]
    · rw [markFirst, if_neg hk]
      rw [ih (k + 1)]
      simp [hk]

theorem runLenB_le (S : Nat → Bool) : ∀ (m k : Nat), runLenB S k m ≤ m := by
  intro m
  induction m with
  | zero => intro k; simp [runLenB]
  | succ m ih =>
    intro k
    rw [runLenB]
    by_cases hS : S k
    · rw [if_pos hS]
      have := ih (k + 1)
      omega
    · rw [if_neg hS]
      omega

theorem runLenB_mem (S : Nat → Bool) :
    ∀ (m k i : Nat), k ≤ i → i < k + runLenB S k m → S i = true := by
  intro m
  induction m with
  | zero =>
    intro k i h1 h2
    rw [runLenB] at h2
    omega
  | succ m ih =>
    intro k i h1 h2
    rw [runLenB] at h2
    by_cases hS : S k
    · rw [if_pos hS] at h2
      rcases eq_or_lt_of_le h1 with rfl | hlt
      · exact hS
      · exact ih (k + 1) i hlt (by omega)
    · rw [if_neg hS] at h2
      omega

theorem runLenB_front (S : Nat → Bool) :
    ∀ (m k : Nat), runLenB S k m < m → S (k + runLenB S k m) = false := by
  intro m
  induction m with
  | zero => intro k h; omega
  | succ m ih =>
    intro k h
    rw [runLenB] at h ⊢
    by_cases hS : S k
    · rw [if_pos hS] at h ⊢
      have := ih (k + 1) (by omega)
      rw [show k + (runLenB S (k + 1) m + 1) = k + 1 + runLenB S (k + 1) m by omega]
      exact this
    · rw [if_neg hS] at h ⊢
      rw [Nat.add_zero]
      exact Bool.eq_false_iff.mpr hS

theorem runLenB_eq_of (S : Nat → Bool) :
    ∀ (m a j : Nat), j ≤ m → (∀ i, i < j → S (a + i) = true) →
      (j < m → S (a + j) = false) → runLenB S a m = j := by
  intro m
  induction m with
  | zero => intro a j h1 _ _; rw [runLenB]; omega
  | succ m ih =>
    intro a j h1 h2 h3
    rw [runLenB]
    cases j with
    | zero =>
      have := h3 (by omega)
      rw [Nat.add_zero] at this
      rw [if_neg (by simp [this])]
    | succ j =>
      have hSa : S a = true := by
        have := h2 0 (by omega)
        simpa using this
      rw [if_pos hSa]
      have := ih (a + 1) j (by omega)
        (fun i hi => by
          have := h2 (i + 1) (by omega)
          rwa [show a + (i + 1) = a + 1 + i by omega] at this)
        (fun hj => by
          have := h3 (by omega)
          rwa [show a + (j + 1) = a + 1 + j by omega] at this)
      omega

theorem drainReplies_map_range (ctx : ReqCtx) (S : Nat → Bool) :
    ∀ (m k : Nat) (acc : DrainAcc),
      drainReplies ctx ((List.range' k m).map (fun i => (i, S i))) acc =
        ((List.range' (k + runLenB S k m) (m - runLenB S k m)).map (fun i => (i, S i)),
          (List.range' k (runLenB S k m)).foldl (stepReply ctx) acc) := by
  intro m
  induction m with
  | zero => intro k acc; simp [drainReplies, runLenB]
  | succ m ih =>
    intro k acc
    rw [List.range'_succ]
    simp only [List.map_cons]
    by_cases hS : S k
    · rw [hS]
      rw [drainReplies]
      rw [ih (k + 1) (stepReply ctx acc k)]
      rw [runLenB, if_pos hS]
      refine congrArg₂ Prod.mk ?_ ?_
      · rw [show k + 1 + runLenB S (k + 1) m = k + (runLenB S (k + 1) m + 1) by omega]
        rw [show m - runLenB S (k + 1) m = m + 1 - (runLenB S (k + 1) m + 1) by omega]
      · rw [List.range'_succ, List.foldl_cons]
    · have hS0 : S k = false := Bool.eq_false_iff.mpr hS
      rw [hS0]
      rw [drainReplies]
      rw [runLenB, if_neg hS]
      simp [List.range'_succ, hS0]

theorem foldl_stepReply_congr (ctx : ReqCtx) :
    ∀ (l : List Nat) (a b : DrainAcc),
      a.data = b.data → a.hasAnyData = b.hasAnyData → a.errorString = b.errorString →
      a.addedPageIds = b.addedPageIds →
      (l.foldl (stepReply ctx) a).data = (l.foldl (stepReply ctx) b).data ∧
      (l.foldl (stepReply ctx) a).hasAnyData = (l.foldl (stepReply ctx) b).hasAnyData ∧
      (l.foldl (stepReply ctx) a).errorString = (l.foldl (stepReply ctx) b).errorString ∧
      (l.foldl (stepReply ctx) a).addedPageIds = (l.foldl (stepReply ctx) b).addedPageIds := by
  intro l
  induction l with
  | nil => intro a b h1 h2 h3 h4; exact ⟨h1, h2, h3, h4⟩
  | cons i rest ih =>
    intro a b h1 h2 h3 h4
    rw [List.foldl_cons, List.foldl_cons]
    exact ih _ _
      (by rw [stepReply_eq ctx a i, stepReply_eq ctx b i]; simp [h1, h4])
      (by rw [stepReply_eq ctx a i, stepReply_eq ctx b i]; simp [h2, h4])
      (by rw [stepReply_eq ctx a i, stepReply_eq ctx b i]; simp [h3])
      (by rw [stepReply_eq ctx a i, stepReply_eq ctx b i]; simp [h4])


theorem requestFinished_not_found (ctx : ReqCtx) (r : Nat) (st : ReqState)
    (h1 : st.finished = false)
    (h2 : (st.netReplies.map Prod.fst).contains r = false) :
    requestFinished ctx r st = st := by
  simp only [requestFinished, h1, h2]
  simp

theorem requestFinished_found (ctx : ReqCtx) (r : Nat) (st : ReqState)
    (h1 : st.finished = false)
    (h2 : (st.netReplies.map Prod.fst).contains r = true)
    (q2 : List (Nat × Bool)) (F : DrainAcc)
    (hd : drainReplies ctx (markFirst r st.netReplies)
        { data := st.data, hasAnyData := st.hasAnyData, errorString := st.errorString,
          addedPageIds := st.addedPageIds, updated := false } = (q2, F)) :
    requestFinished ctx r st =
      if q2.isEmpty then
        finishReq
          { st with
            netReplies := q2, data := F.data, hasAnyData := F.hasAnyData,
            errorString := F.errorString, addedPageIds := F.addedPageIds }
      else if F.updated then
        { st with
          netReplies := q2, data := F.data, hasAnyData := F.hasAnyData,
          errorString := F.errorString, addedPageIds := F.addedPageIds,
          updateCount := st.updateCount + 1 }
      else
        { st with
          netReplies := q2, data := F.data, hasAnyData := F.hasAnyData,
          errorString := F.errorString, addedPageIds := F.addedPageIds } := by
  simp only [requestFinished, h1, h2, hd]
  simp

theorem requestFinished_inv (ctx : ReqCtx) (n : Nat) (S : Nat → Bool) (r : Nat)
    (st : ReqState) (T : Nat → Bool) (hT : ∀ i, T i = (S i || decide (i = r)))
    (h : ReqInv ctx n S st) :
    ReqInv ctx n T (requestFinished ctx r st) := by
  obtain ⟨k, hk, hq, hall, hfront, hdata, hhas, herr, hids, hfin, hfc⟩ := h
  have hTtrue : ∀ i, S i = true → T i = true := by
    intro i hi
    rw [hT i, hi]
    simp
  by_cases hkn : k = n
  · subst hkn
    have hfin2 : st.finished = true := by rw [hfin]; simp
    rw [requestFinished_finished_id ctx r st hfin2]
    exact ⟨k, le_refl k, by rw [hq]; simp [Nat.sub_self],
      fun i hi => hTtrue i (hall i hi),
      fun hlt => absurd hlt (lt_irrefl k),
      hdata, hhas, herr, hids, hfin, hfc⟩
  · have hkltn : k < n := lt_of_le_of_ne hk hkn
    have hfin2 : st.finished = false := by rw [hfin]; simp [hkn]
    have hmapfst : st.netReplies.map Prod.fst = List.range' k (n - k) := by
      rw [hq, List.map_map]
      have hcomp : (Prod.fst ∘ fun i : Nat => (i, S i)) = id := rfl
      rw [hcomp, List.map_id]
    by_cases hr : r ∈ List.range' k (n - k)
    case neg =>
      have hcont : (st.netReplies.map Prod.fst).contains r = false := by
        rw [hmapfst, contains_eq_decide_mem]
        simp [hr]
      rw [requestFinished_not_found ctx r st hfin2 hcont]
      refine ⟨k, hk, ?_, fun i hi => hTtrue i (hall i hi), ?_, hdata, hhas, herr, hids, hfin, hfc⟩
      · rw [hq]
        apply List.map_congr_left
        intro i hi
        have hir : i ≠ r := fun he => hr (he ▸ hi)
        rw [hT i]
        simp [hir]
      · intro hlt
        have hkr : k ≠ r := by
          intro he
          exact hr (he ▸ List.mem_range'_1.mpr ⟨le_refl k, by omega⟩)
        rw [hT k, hfront hlt]
        simp [hkr]
    case pos =>
      have hcont : (st.netReplies.map Prod.fst).contains r = true := by
        rw [hmapfst, contains_eq_decide_mem]
        simp [hr]
      have hTfun : (fun i : Nat => (i, S i || decide (i = r))) = (fun i : Nat => (i, T i)) := by
        funext i
        rw [hT i]
      have hmark : markFirst r st.netReplies =
          (List.range' k (n - k)).map (fun i => (i, T i)) := by
        rw [hq, markFirst_map_range S r (n - k) k, hTfun]
      have hdrain : drainReplies ctx (markFirst r st.netReplies)
          { data := st.data, hasAnyData := st.hasAnyData, errorString := st.errorString,
            addedPageIds := st.addedPageIds, updated := false } =
          ((List.range' (k + runLenB T k (n - k)) (n - k - runLenB T k (n - k))).map
              (fun i => (i, T i)),
            (List.range' k (runLenB T k (n - k))).foldl (stepReply ctx)
              { data := st.data, hasAnyData := st.hasAnyData, errorString := st.errorString,
                addedPageIds := st.addedPageIds, updated := false }) := by
        rw [hmark]
        exact drainReplies_map_range ctx T (n - k) k _
      have hjle : runLenB T k (n - k) ≤ n - k := runLenB_le T (n - k) k
      have hall2 : ∀ i, i < k + runLenB T k (n - k) → T i = true := by
        intro i hi
        by_cases hik : i < k
        · exact hTtrue i (hall i hik)
        · exact runLenB_mem T (n - k) k i (by omega) hi
      have hfront2 : k + runLenB T k (n - k) < n → T (k + runLenB T k (n - k)) = false := by
        intro hlt
        exact runLenB_front T (n - k) k (by omega)
      have haccadd := accOf_add ctx k (runLenB T k (n - k))
      have hFfields := foldl_stepReply_congr ctx (List.range' k (runLenB T k (n - k)))
        { data := st.data, hasAnyData := st.hasAnyData, errorString := st.errorString,
          addedPageIds := st.addedPageIds, updated := false } (accOf ctx k)
        hdata hhas herr hids
      set j := runLenB T k (n - k) with hjdef
      set F := (List.range' k j).foldl (stepReply ctx)
        { data := st.data, hasAnyData := st.hasAnyData, errorString := st.errorString,
          addedPageIds := st.addedPageIds, updated := false } with hFdef
      rw [requestFinished_found ctx r st hfin2 hcont _ _ hdrain]
      rw [← haccadd] at hFfields
      by_cases hempty : ((List.range' (k + j) (n - k - j)).map (fun i => (i, T i))).isEmpty
      · have hlen0 : n - k - j = 0 := by
          by_contra hne
          rw [List.isEmpty_iff, List.map_eq_nil_iff] at hempty
          have := List.range'_eq_nil.mp hempty
          omega
        have hkjn : k + j = n := by omega
        rw [if_pos hempty]
        refine ⟨n, le_refl n, ?_, fun i hi => hall2 i (by omega),
          fun hlt => absurd hlt (lt_irrefl n), ?_, ?_, ?_, ?_, by simp [finishReq], ?_⟩
        · show (List.range' (k + j) (n - k - j)).map (fun i => (i, T i)) =
            (List.range' n (n - n)).map (fun i => (i, T i))
          rw [hlen0, hkjn, Nat.sub_self]
        · show F.data = (accOf ctx n).data
          rw [← hkjn, hFfields.1]
        · show F.hasAnyData = (accOf ctx n).hasAnyData
          rw [← hkjn, hFfields.2.1]
        · show F.errorString = (accOf ctx n).errorString
          rw [← hkjn, hFfields.2.2.1]
        · show F.addedPageIds = (accOf ctx n).addedPageIds
          rw [← hkjn, hFfields.2.2.2]
        · show st.finishCount + 1 = if n = n then 1 else 0
          rw [hfc, if_neg hkn, if_pos rfl]
      · rw [if_neg hempty]
        have hlenpos : n - k - j ≠ 0 := by
          intro h0
          rw [List.isEmpty_iff] at hempty
          exact hempty (by rw [h0]; simp)
        have hkjn : k + j < n := by omega
        have hcore : ∀ u : Nat, ReqInv ctx n T
            { st with
              netReplies := (List.range' (k + j) (n - k - j)).map (fun i => (i, T i)),
              data := F.data, hasAnyData := F.hasAnyData, errorString := F.errorString,
              addedPageIds := F.addedPageIds, updateCount := u } := by
          intro u
          refine ⟨k + j, by omega, ?_, hall2, hfront2, ?_, ?_, ?_, ?_, ?_, ?_⟩
          · show (List.range' (k + j) (n - k - j)).map (fun i => (i, T i)) =
              (List.range' (k + j) (n - (k + j))).map (fun i => (i, T i))
            congr 2
            omega
          · show F.data = (accOf ctx (k + j)).data
            exact hFfields.1
          · show F.hasAnyData = (accOf ctx (k + j)).hasAnyData
            exact hFfields.2.1
          · show F.errorString = (accOf ctx (k + j)).errorString
            exact hFfields.2.2.1
          · show F.addedPageIds = (accOf ctx (k + j)).addedPageIds
            exact hFfields.2.2.2
          · show st.finished = decide (k + j = n)
            rw [hfin2]
            simp [Nat.ne_of_lt hkjn]
          · show st.finishCount = if k + j = n then 1 else 0
            rw [hfc, if_neg hkn, if_neg (Nat.ne_of_lt hkjn)]
        by_cases hupd : F.updated
        · rw [if_pos hupd]
          exact hcore (st.updateCount + 1)
        · rw [if_neg hupd]
          exact hcore st.updateCount

theorem initState_inv (ctx : ReqCtx) (n : Nat) (hn : 0 < n) :
    ReqInv ctx n (fun i => decide (i ∈ ([] : List Nat))) (initState n) := by
  refine ⟨0, Nat.zero_le n, ?_, ?_, ?_, rfl, rfl, rfl, rfl, ?_, ?_⟩
  · show (List.range n).map (fun i => (i, false)) =
      (List.range' 0 (n - 0)).map (fun i => (i, decide (i ∈ ([] : List Nat))))
    rw [Nat.sub_zero, ← List.range_eq_range']
    simp
  · intro i hi
    omega
  · intro _
    simp
  · show false = decide (0 = n)
    have : 0 ≠ n := by omega
    simp [this]
  · show 0 = if 0 = n then 1 else 0
    rw [if_neg (by omega)]

theorem runEvents_inv (ctx : ReqCtx) (n : Nat) :
    ∀ (evs evs0 : List Nat) (st : ReqState),
      ReqInv ctx n (fun i => decide (i ∈ evs0)) st →
      ReqInv ctx n (fun i => decide (i ∈ evs0 ++ evs)) (runEvents ctx evs st) := by
  intro evs
  induction evs with
  | nil =>
    intro evs0 st h
    simpa using h
  | cons e rest ih =>
    intro evs0 st h
    have hstep := requestFinished_inv ctx n (fun i => decide (i ∈ evs0)) e st
      (fun i => decide (i ∈ evs0 ++ [e]))
      (fun i => by simp [List.mem_append, Bool.decide_or]) h
    have hrec := ih (evs0 ++ [e]) (requestFinished ctx e st) hstep
    have hl : (evs0 ++ [e]) ++ rest = evs0 ++ e :: rest := by simp
    rw [hl] at hrec
    exact hrec

theorem drainedCount_eq_runLenB (evs : List Nat) :
    ∀ (m k : Nat), drainedCount evs k m = runLenB (fun i => decide (i ∈ evs)) k m := by
  intro m
  induction m with
  | zero => intro k; rfl
  | succ m ih =>
    intro k
    by_cases h : k ∈ evs <;> simp [drainedCount, runLenB, h, ih]

theorem runGlobal_eq_of_isSome_false {α : Type} (f : List Char → Option (Nat × α))
    (g : List Char → α → List Char) (s : List Char)
    (h : (findFirst f s).isSome = false) : runGlobal f g s = s := by
  cases hfind : findFirst f s with
  | none => exact runGlobal_eq_of_none f g s hfind
  | some v =>
    rw [hfind] at h
    simp at h

theorem idsAfter_prefix (ctx : ReqCtx) (ids : List Int) (i : Nat) :
    ids <+: idsAfter ctx ids i := by
  cases henv : ctx.env i with
  | transportError m => simp [idsAfter, henv]
  | ok body =>
    cases body with
    | malformed es l c => simp [idsAfter, henv]
    | doc po =>
      cases po with
      | none => simp [idsAfter, henv]
      | some pn =>
        by_cases hrev : attrD pn.revid = cl "0"
        · simp [idsAfter, henv, hrev]
        · by_cases hmem : qtToLongLong (attrD pn.pageid) ∈ ids
          · simp [idsAfter, henv, hrev, smallSetInsert, hmem]
          · simp only [idsAfter, henv, hrev, smallSetInsert, hmem, if_neg, if_false]
            exact List.prefix_append ids _

theorem runEvents_fields (ctx : ReqCtx) (m : Nat) (evs : List Nat) :
    (runEvents ctx evs (initState (m + 1))).data =
      ((fragsFrom ctx [] (List.range (drainedCount evs 0 (m + 1)))).map Prod.snd).flatten ∧
    (runEvents ctx evs (initState (m + 1))).errorString =
      lastErrOf ctx (List.range (drainedCount evs 0 (m + 1))) ∧
    (runEvents ctx evs (initState (m + 1))).netReplies.map Prod.fst =
      List.range' (drainedCount evs 0 (m + 1)) (m + 1 - drainedCount evs 0 (m + 1)) := by
  have hinv := runEvents_inv ctx (m + 1) evs [] (initState (m + 1))
    (initState_inv ctx (m + 1) (by omega))
  rw [List.nil_append] at hinv
  obtain ⟨k, hk, hq, hall, hfront, hdata, hhas, herr, hids, hfin, hfc⟩ := hinv
  have hkeq : drainedCount evs 0 (m + 1) = k := by
    rw [drainedCount_eq_runLenB]
    exact runLenB_eq_of _ (m + 1) 0 k hk
      (fun i hi => by simpa using hall i hi)
      (fun hlt => by simpa using hfront hlt)
  have hspec := foldl_stepReply_spec ctx (List.range' 0 k) initAcc
  refine ⟨?_, ?_, ?_⟩
  · rw [hkeq, hdata]
    calc (accOf ctx k).data
        = initAcc.data ++
            ((fragsFrom ctx initAcc.addedPageIds (List.range' 0 k)).map Prod.snd).flatten :=
          hspec.1
      _ = ((fragsFrom ctx [] (List.range k)).map Prod.snd).flatten := by
          rw [List.range_eq_range']
          rfl
  · rw [hkeq, herr]
    calc (accOf ctx k).errorString
        = (List.range' 0 k).foldl (errAfter ctx) initAcc.errorString := hspec.2.2
      _ = lastErrOf ctx (List.range k) := by
          rw [List.range_eq_range']
          rfl
  · rw [hkeq, hq, List.map_map]
    have hcomp : (Prod.fst ∘ fun i : Nat => (i, decide (i ∈ evs))) = id := rfl
    rw [hcomp, List.map_id]

/-! ## Claim theorems -/

/-- C1: for every article request (primary word plus `m` alternates)
and every order in which completion events arrive, the article buffer
equals the concatenation, in query submission order, of the transformed
fragments of the longest contiguous completed prefix of the queue —
never completion order — and the remaining queue is exactly the
submission-ordered suffix of not-yet-drained queries. -/
theorem drain_preserves_submission_order (ctx : ReqCtx) (m : Nat) (evs : List Nat) :
    (runEvents ctx evs (initState (m + 1))).data =
      ((fragsFrom ctx [] (List.range (drainedCount evs 0 (m + 1)))).map Prod.snd).flatten ∧
    (runEvents ctx evs (initState (m + 1))).netReplies.map Prod.fst =
      List.range' (drainedCount evs 0 (m + 1)) (m + 1 - drainedCount evs 0 (m + 1)) :=
  ⟨(runEvents_fields ctx m evs).1, (runEvents_fields ctx m evs).2.2⟩

/-- C2: `SmallSet::insert` returns false exactly when the page id was
already inserted earlier, and never shrinks the set (the old contents
remain a prefix, both for the raw insert and across a processed reply);
consequently the page identities whose content is appended to the
buffer over any drained submission prefix are pairwise distinct. -/
theorem smallSet_insert_dedup :
    (∀ (l : List Int) (x : Int),
      ((smallSetInsert l x).2 = false ↔ x ∈ l) ∧ l <+: (smallSetInsert l x).1) ∧
    (∀ (ctx : ReqCtx) (acc : DrainAcc) (i : Nat),
      acc.addedPageIds <+: (stepReply ctx acc i).addedPageIds) ∧
    (∀ (ctx : ReqCtx) (k : Nat),
      ((fragsFrom ctx [] (List.range k)).map Prod.fst).Nodup) := by
  refine ⟨?_, ?_, ?_⟩
  · intro l x
    constructor
    · by_cases h : x ∈ l <;> simp [smallSetInsert, h]
    · by_cases h : x ∈ l
      · simp [smallSetInsert, h]
      · simp only [smallSetInsert, h, if_neg, if_false]
        exact List.prefix_append l [x]
  · intro ctx acc i
    rw [stepReply_eq]
    exact idsAfter_prefix ctx acc.addedPageIds i
  · intro ctx k
    exact (fragsFrom_pages_nodup ctx (List.range k) []).1

/-- C3 counterexample: the 80-unit length guard of `getArticle` tests
only the primary word, so a network query is issued for an 81-character
alternate term, contradicting the claim that no network operation is
issued for any over-long query term. -/
theorem getArticle_overlong_alternate_cex :
    80 < (List.replicate 81 'w').length ∧
    getArticle (cl "a") [List.replicate 81 'w'] =
      GetArticleResult.request [cl "a", List.replicate 81 'w'] := by
  constructor
  · simp
  · decide

/-- C3 (amended): the length guard applies to the primary word of the
article fetch and to the prefix-search term only — an over-long primary
word (or search term) yields an immediately finished empty result with
no network operation, while any primary word within the limit issues
one query per term, alternates included and unchecked. -/
theorem getArticle_length_guard :
    (∀ (word : List Char) (alts : List (List Char)), 80 < word.length →
        getArticle word alts = GetArticleResult.instantEmpty) ∧
    (∀ (word : List Char) (alts : List (List Char)), word.length ≤ 80 →
        getArticle word alts = GetArticleResult.request (word :: alts)) ∧
    (∀ word : List Char, 80 < word.length →
        prefixMatchModel word = PrefixSearchResult.instantEmpty) ∧
    (∀ word : List Char, word.length ≤ 80 →
        prefixMatchModel word = PrefixSearchResult.request word) := by
  refine ⟨?_, ?_, ?_, ?_⟩
  · intro w alts h
    simp [getArticle, h]
  · intro w alts h
    have hneg : ¬ w.length > 80 := by omega
    simp [getArticle, hneg]
  · intro w h
    simp [prefixMatchModel, h]
  · intro w h
    have hneg : ¬ w.length > 80 := by omega
    simp [prefixMatchModel, hneg]

theorem getArticle_length_guard_witness :
    80 < (List.replicate 81 'w').length ∧
    getArticle (List.replicate 81 'w') [] = GetArticleResult.instantEmpty :=
  ⟨by simp, getArticle_length_guard.1 (List.replicate 81 'w') [] (by simp)⟩

/-- C4 counterexample: a response whose `api/parse` node has no `revid`
attribute at all is not skipped — `attribute` returns the empty string,
which differs from `"0"`, so the page's content is appended to the
buffer, contradicting the claim that an absent revid means not found. -/
theorem revid_absent_page_processed_cex :
    cexParseNoRevid.revid = none ∧
    (stepReply cexCtxNoRevid initAcc 0).data = cl "<div class=\"mwiki\">X</div>" ∧
    (stepReply cexCtxNoRevid initAcc 0).data ≠ [] :=
  ⟨rfl, by decide, by decide⟩

/-- C4 (amended): a page is treated as not found and skipped — state
entirely unchanged, nothing appended, no page id recorded — exactly
when the `api/parse` node is absent or its `revid` attribute reads
`"0"`; an absent revid attribute reads as the empty string and is not
skipped. -/
theorem revid_zero_or_missing_parse_skipped :
    (∀ (ctx : ReqCtx) (acc : DrainAcc) (i : Nat) (pn : ParseElem),
        ctx.env i = ReplyResult.ok (XmlBody.doc (some pn)) →
        attrD pn.revid = cl "0" → stepReply ctx acc i = acc) ∧
    (∀ (ctx : ReqCtx) (acc : DrainAcc) (i : Nat),
        ctx.env i = ReplyResult.ok (XmlBody.doc none) → stepReply ctx acc i = acc) := by
  constructor
  · intro ctx acc i pn h1 h2
    simp [stepReply, h1, h2]
  · intro ctx acc i h
    simp [stepReply, h]

theorem revid_zero_or_missing_parse_skipped_witness :
    ctxZeroRevid.env 0 = ReplyResult.ok (XmlBody.doc (some parseZeroRevid)) ∧
    attrD parseZeroRevid.revid = cl "0" ∧
    stepReply ctxZeroRevid initAcc 0 = initAcc :=
  ⟨rfl, rfl, revid_zero_or_missing_parse_skipped.1 ctxZeroRevid initAcc 0 parseZeroRevid rfl rfl⟩

/-- C5: after `cancel` on an in-flight request the completion signal
has fired exactly once, and no completion event delivered afterwards
changes the state at all — in particular the article buffer is never
mutated again, however many operations were outstanding. -/
theorem cancel_blocks_further_mutation (ctx : ReqCtx) (st : ReqState) (evs : List Nat)
    (h : st.finished = false) :
    runEvents ctx evs (cancelReq st) = cancelReq st ∧
    (cancelReq st).finishCount = st.finishCount + 1 ∧
    (cancelReq st).data = st.data :=
  ⟨runEvents_finished_id ctx evs (cancelReq st) rfl, rfl, rfl⟩

theorem cancel_blocks_further_mutation_witness :
    (initState 3).finished = false ∧
    (runEvents ctxAllFail [0, 2, 1] (cancelReq (initState 3)) = cancelReq (initState 3) ∧
      (cancelReq (initState 3)).finishCount = (initState 3).finishCount + 1 ∧
      (cancelReq (initState 3)).data = (initState 3).data) :=
  ⟨rfl, cancel_blocks_further_mutation ctxAllFail (initState 3) [0, 2, 1] rfl⟩

/-- C6: for every section list whose toclevels are positive and never
increase by more than one step (starting from level 0, so the first
level is 1), the synthesized table of contents is produced and its
structural list/item tags balance: as many `<ul>` opens as `</ul>`
closes and as many `<li>` opens as `</li>` closes. -/
theorem toc_wellformed_balanced (secs : List SectionElem)
    (h : wellFormedLevels 0 secs = true) :
    ulOpens (tocTokens secs) = ulCloses (tocTokens secs) ∧
    liOpens (tocTokens secs) = liCloses (tocTokens secs) ∧
    (secs ≠ [] → tocTokens secs ≠ []) := by
  cases secs with
  | nil => exact ⟨rfl, rfl, fun hne => absurd rfl hne⟩
  | cons s0 srest =>
    obtain ⟨toks, pf, hloop, hul, hli, _, hpf1⟩ := tocLoop_wf_spec (s0 :: srest) 0 h
    have hpf : 1 ≤ pf := hpf1 (by simp)
    have htt : tocTokens (s0 :: srest) =
        TocTok.header :: (toks ++ closeListTags 1 pf ++ [TocTok.closeUlDiv]) := by
      simp [tocTokens, hloop]
    rw [htt]
    refine ⟨?_, ?_, fun _ => by simp⟩
    · simp only [ulOpens, ulCloses] at hul ⊢
      simp [closeListTags, wUlOpen, wUlClose, List.sum_replicate]
      omega
    · simp only [liOpens, liCloses] at hli ⊢
      simp [closeListTags, wLiOpen, wLiClose, List.sum_replicate]
      omega

theorem toc_wellformed_balanced_witness :
    wellFormedLevels 0 sampleSections = true ∧
    (ulOpens (tocTokens sampleSections) = ulCloses (tocTokens sampleSections) ∧
      liOpens (tocTokens sampleSections) = liCloses (tocTokens sampleSections) ∧
      (sampleSections ≠ [] → tocTokens sampleSections ≠ [])) :=
  ⟨by decide, toc_wellformed_balanced sampleSections (by decide)⟩

/-- C7: when the section list is malformed (a level jump greater than
one, a nonpositive level, or a non-numeric level anywhere), synthesis
aborts: the empty-ToC indicator is removed from the article body and no
replacement fragment is inserted. -/
theorem toc_malformed_aborts (parse : ParseElem) (secs : List SectionElem)
    (article : List Char) (i : Nat)
    (hs : parse.sections = some secs)
    (hbad : wellFormedLevels 0 secs = false)
    (hidx : indexOfSub emptyTocIndicator article = some i) :
    generateTableOfContentsIfEmpty parse article =
      article.take i ++ article.drop (i + emptyTocIndicator.length) := by
  have hloop := tocLoop_none_of_malformed secs 0 hbad
  have hne : secs ≠ [] := by
    intro he
    rw [he] at hbad
    simp [wellFormedLevels] at hbad
  obtain ⟨s0, srest, rfl⟩ := List.exists_cons_of_ne_nil hne
  have hgen : generateTableOfContents (s0 :: srest) = [] := by
    rw [generateTableOfContents]
    simp [tocTokens, hloop]
  simp only [generateTableOfContentsIfEmpty, hidx, hs, hgen]
  simp [replaceAt]

theorem toc_malformed_aborts_witness :
    wellFormedLevels 0 jumpSections = false ∧
    generateTableOfContentsIfEmpty
        { revid := some (cl "1"), pageid := some (cl "9"), text := none,
          sections := some jumpSections }
        (emptyTocIndicator ++ cl "REST") =
      ([] : List Char) ++ cl "REST" :=
  ⟨by decide,
    toc_malformed_aborts
      { revid := some (cl "1"), pageid := some (cl "9"), text := none,
        sections := some jumpSections }
      jumpSections (emptyTocIndicator ++ cl "REST") 0 rfl (by decide) (by decide)⟩

/-- C8: a drained query that failed (transport error or XML parse
error) only overwrites the single error string and contributes no
content, and failures never stop the drain: over any event order the
error string is the last failing drained query's message (in queue
order) while the buffer still collects every usable fragment of the
drained prefix in submission order. -/
theorem errors_do_not_stop_drain :
    (∀ (ctx : ReqCtx) (acc : DrainAcc) (i : Nat) (msg : List Char),
        ctx.env i = ReplyResult.transportError msg →
        stepReply ctx acc i = { acc with errorString := msg }) ∧
    (∀ (ctx : ReqCtx) (acc : DrainAcc) (i : Nat) (es : List Char) (l c : Int),
        ctx.env i = ReplyResult.ok (XmlBody.malformed es l c) →
        stepReply ctx acc i = { acc with errorString := xmlErrorMsg es l c }) ∧
    (∀ (ctx : ReqCtx) (m : Nat) (evs : List Nat),
        (runEvents ctx evs (initState (m + 1))).errorString =
          lastErrOf ctx (List.range (drainedCount evs 0 (m + 1))) ∧
        (runEvents ctx evs (initState (m + 1))).data =
          ((fragsFrom ctx [] (List.range (drainedCount evs 0 (m + 1)))).map Prod.snd).flatten) := by
  refine ⟨?_, ?_, ?_⟩
  · intro ctx acc i msg h
    simp [stepReply, h]
  · intro ctx acc i es l c h
    simp [stepReply, h]
  · intro ctx m evs
    exact ⟨(runEvents_fields ctx m evs).2.1, (runEvents_fields ctx m evs).1⟩

theorem errors_do_not_stop_drain_witness :
    ctxAllFail.env 0 = ReplyResult.transportError (cl "boom") ∧
    stepReply ctxAllFail initAcc 0 = { initAcc with errorString := cl "boom" } :=
  ⟨rfl, errors_do_not_stop_drain.1 ctxAllFail initAcc 0 (cl "boom") rfl⟩

/-- C9: every pass of the content-transform pipeline applied to an
input already in its fixed point gives the same output applied twice as
applied once, and leaves any input it does not match unchanged. -/
theorem content_passes_idempotent (scheme wikiUrlStr url dictId : List Char)
    (reg : List Char → List Char → List Char) (p : TPass)
    (hp : p ∈ contentPasses scheme wikiUrlStr url dictId reg) (s : List Char) :
    (p.run s = s → p.run (p.run s) = p.run s) ∧ (p.hits s = false → p.run s = s) := by
  refine ⟨fun h => by rw [h, h], ?_⟩
  intro hh
  simp only [contentPasses, wikiStripEntry, List.mem_cons, List.not_mem_nil, or_false] at hp
  rcases hp with rfl | rfl | rfl | rfl | rfl | rfl | rfl | rfl | rfl
  · exact runGlobal_eq_of_isSome_false _ _ _ hh
  · exact runGlobal_eq_of_isSome_false _ _ _ hh
  · exact runGlobal_eq_of_isSome_false _ _ _ hh
  · exact runGlobal_eq_of_isSome_false _ _ _ hh
  · have hh4 : containsSub (cl " src=\"//") s = false ∧ containsSub (cl "src=\"/") s = false ∧
        containsSub (cl " href=\"//") s = false ∧ containsSub (cl "url(\"//") s = false := by
      simpa [Bool.or_eq_false_iff, and_assoc] using hh
    have e1 : srcProtoPass scheme s = s :=
      replaceSub_eq_of_not_contains _ _ s hh4.1
    have e2 : srcRootPass wikiUrlStr s = s :=
      replaceSub_eq_of_not_contains _ _ s hh4.2.1
    have e3 : hrefProtoPass scheme s = s :=
      replaceSub_eq_of_not_contains _ _ s hh4.2.2.1
    have e4 : cssUrlProtoPass scheme s = s :=
      replaceSub_eq_of_not_contains _ _ s hh4.2.2.2
    show schemeCompletionPass scheme wikiUrlStr s = s
    rw [schemeCompletionPass, e1, e2, e3, e4]
  · exact replaceSub_eq_of_not_contains _ _ s hh
  · exact runGlobal_eq_of_isSome_false _ _ _ hh
  · exact runGlobal_eq_of_isSome_false _ _ _ hh
  · exact runGlobal_eq_of_isSome_false _ _ _ hh

theorem content_passes_idempotent_witness :
    wikiStripEntry.hits (cl "hello") = false ∧ wikiStripEntry.run (cl "hello") = cl "hello" :=
  ⟨by decide,
    (content_passes_idempotent (cl "https") (cl "https://x.org/") (cl "https://x.org/w")
      (cl "d") (fun _ _ => []) wikiStripEntry
      (List.Mem.tail _ (List.Mem.tail _ (List.Mem.tail _ (List.Mem.tail _ (List.Mem.tail _
        (List.Mem.head _)))))) (cl "hello")).2 (by decide)⟩

/-- C10: a found page (revid not `"0"`) whose id is new but which has
no `text` child records its page id in the dedup set while appending
nothing; a later query in the same request resolving to the same page
id is then dropped as a duplicate, so its content is never emitted
either. -/
theorem textless_page_poisons_dedup
    (ctx : ReqCtx) (acc : DrainAcc) (i j : Nat) (pn1 pn2 : ParseElem)
    (h1 : ctx.env i = ReplyResult.ok (XmlBody.doc (some pn1)))
    (h2 : ctx.env j = ReplyResult.ok (XmlBody.doc (some pn2)))
    (hr1 : attrD pn1.revid ≠ cl "0") (hr2 : attrD pn2.revid ≠ cl "0")
    (ht : pn1.text = none)
    (hp : qtToLongLong (attrD pn2.pageid) = qtToLongLong (attrD pn1.pageid))
    (hnew : qtToLongLong (attrD pn1.pageid) ∉ acc.addedPageIds) :
    qtToLongLong (attrD pn1.pageid) ∈ (stepReply ctx acc i).addedPageIds ∧
    (stepReply ctx acc i).data = acc.data ∧
    (stepReply ctx (stepReply ctx acc i) j).data = acc.data := by
  have hstep1 : stepReply ctx acc i =
      { acc with addedPageIds := acc.addedPageIds ++ [qtToLongLong (attrD pn1.pageid)] } := by
    simp [stepReply, h1, hr1, smallSetInsert, hnew, ht]
  refine ⟨?_, ?_, ?_⟩
  · rw [hstep1]
    simp
  · rw [hstep1]
  · rw [hstep1]
    have hmem2 : qtToLongLong (attrD pn2.pageid) ∈
        acc.addedPageIds ++ [qtToLongLong (attrD pn1.pageid)] := by
      rw [hp]
      simp
    simp [stepReply, h2, hr2, smallSetInsert, hmem2]

theorem textless_page_poisons_dedup_witness :
    qtToLongLong (attrD parseTextless.pageid) ∈ (stepReply ctxTextless initAcc 0).addedPageIds ∧
    (stepReply ctxTextless initAcc 0).data = initAcc.data ∧
    (stepReply ctxTextless (stepReply ctxTextless initAcc 0) 1).data = initAcc.data :=
  textless_page_poisons_dedup ctxTextless initAcc 0 1 parseTextless parseWithText rfl rfl
    (by decide) (by decide) rfl rfl (by decide)
